import Mathlib

/-!
Shallow embedding of `src/unix/unix_c/unix_recv_send_utils.c` (lwt):
vectored send/receive over a Unix-domain socket with SCM_RIGHTS file
descriptor passing.  The four C functions `store_iovs`,
`bytes_store_iovs`, `wrapper_recv_msg` and `wrapper_send_msg` are
embedded as Lean functions; the `recvmsg`/`sendmsg` system calls are an
oracle parameter (the wrappers record the `msghdr` they hand to the
kernel as an event trace), and the kernel's scatter/gather data
movement is modelled separately for the round-trip property.
Machine addresses are natural numbers; `HAVE_FD_PASSING` is a boolean
parameter standing for the compile-time flag.
-/

namespace LwtRecvSend

/-- One low-level scatter/gather entry, as in `struct iovec`:
a base address and a byte length. -/
structure iovec where
  iov_base : Nat
  iov_len : Nat
deriving DecidableEq, Repr

instance : Inhabited iovec := ⟨⟨0, 0⟩⟩

/-- One cell of the OCaml `iovs_val` list handed to the builders: a triple
(buffer, offset, length).  The backing region (an OCaml `bytes` value for
`store_iovs`, a bigarray for `bytes_store_iovs`) is modelled by the base
address of its data, so `&Byte(String_val(buf), off)` and
`(char *)Caml_ba_data_val(buf) + off` both become `buf_base + off`. -/
structure bufferDesc where
  buf_base : Nat
  off : Nat
  len : Nat
deriving DecidableEq, Repr

/-- `store_iovs`: walks the OCaml list of (buffer, offset, length) triples
and fills the pre-allocated iovec array (modelled as a list updated in
place with `List.set`) from position `pos` onwards, the position advancing
with the C's `iovs++`.  Each entry gets `iov_base` = address of the bytes
data plus the offset, and `iov_len` = the length field.  Byte contents are
never touched. -/
def store_iovs (iovs : List iovec) (pos : Nat) : List bufferDesc → List iovec
  | [] => iovs
  | d :: rest => store_iovs (iovs.set pos ⟨d.buf_base + d.off, d.len⟩) (pos + 1) rest

/-- `bytes_store_iovs`: identical loop for bigarray-backed buffers, the
base address coming from `Caml_ba_data_val` instead of `String_val`. -/
def bytes_store_iovs (iovs : List iovec) (pos : Nat) : List bufferDesc → List iovec
  | [] => iovs
  | d :: rest => bytes_store_iovs (iovs.set pos ⟨d.buf_base + d.off, d.len⟩) (pos + 1) rest

/-- sizeof(int) on the modelled (LP64 Linux) platform. -/
def sizeof_int : Nat := 4

/-- CMSG_ALIGN: round up to the 8-byte alignment of `size_t`. -/
def CMSG_ALIGN (n : Nat) : Nat := (n + 7) / 8 * 8

/-- sizeof(struct cmsghdr) on the modelled platform (size_t + int + int,
padded). -/
def cmsghdr_size : Nat := 16

/-- CMSG_LEN(n): header plus n payload bytes, header aligned. -/
def CMSG_LEN (n : Nat) : Nat := CMSG_ALIGN cmsghdr_size + n

/-- CMSG_SPACE(n): header plus aligned payload, the space one record
occupies in a control buffer. -/
def CMSG_SPACE (n : Nat) : Nat := CMSG_ALIGN cmsghdr_size + CMSG_ALIGN n

/-- SOL_SOCKET on the modelled platform. -/
def SOL_SOCKET : Nat := 1

/-- SCM_RIGHTS on the modelled platform. -/
def SCM_RIGHTS : Nat := 1

/-- The control-buffer capacity `wrapper_recv_msg` allocates:
`CMSG_SPACE(256 * sizeof(int))`. -/
def recv_controllen : Nat := CMSG_SPACE (256 * sizeof_int)

/-- One ancillary-data record as the wrapper sees it in the control
buffer: its `cmsg_len`, level, type, and `CMSG_DATA` viewed as an array
of ints.  The receive-side control buffer is zeroed (`memset`) before
the call, so reading an int beyond the record's payload yields 0; the
model reflects this by reading the payload with `List.getD _ _ 0`. -/
structure cmsghdr where
  cmsg_len : Nat
  cmsg_level : Nat
  cmsg_type : Nat
  cmsg_fds : List Int
deriving DecidableEq, Repr

/-- The parts of `struct msghdr` the wrappers set and the kernel reads:
the iovec array, the control-buffer capacity, and the records present in
the control buffer (empty when `msg_control` is NULL). -/
structure msghdr where
  msg_iov : List iovec
  msg_controllen : Nat
  msg_control : List cmsghdr
deriving DecidableEq, Repr

/-- The typed failures the wrappers raise: `uerror(op, Nothing)` carrying
the OS error code and the operation-name string, and
`lwt_unix_not_available(feature)` for a missing platform capability. -/
inductive unixError where
  | unix_error (errno : Nat) (op : String)
  | not_available (feature : String)
deriving DecidableEq, Repr

/-- A system call the wrapper issued: the `msghdr` handed to the kernel
and the return value.  A wrapper run yields the list of calls it made,
so "no syscall attempted" is an empty trace. -/
inductive syscall where
  | sendmsg_call (m : msghdr) (ret : Int)
  | recvmsg_call (m : msghdr) (ret : Int)
deriving DecidableEq, Repr

/-- What `recvmsg` came back with: -1 plus an errno, or a byte count
plus the control records the kernel placed in the buffer. -/
inductive recvOutcome where
  | fail (errno : Nat)
  | ok (nbytes : Nat) (cmsgs : List cmsghdr)
deriving DecidableEq, Repr

/-- The inner extraction loop of `wrapper_recv_msg`:
`for (i = nfds - 1; i >= 0; i--) { list = cons(fds[i], list); }` —
prepend the payload ints starting from the highest index.  `k` is the
number of iterations left; iteration `k` reads index `k - 1`. -/
def fd_collect (fds : List Int) : Nat → List Int → List Int
  | 0, acc => acc
  | k + 1, acc => fd_collect fds k (fds.getD k 0 :: acc)

/-- Descriptor extraction from one matching record:
`nfds = (cmsg_len - CMSG_LEN(0)) / sizeof(int)` then the reverse
prepend loop. -/
def extract_fds (cm : cmsghdr) : List Int :=
  fd_collect cm.cmsg_fds ((cm.cmsg_len - CMSG_LEN 0) / sizeof_int) []

/-- The record filter of the scanning loop:
`cmsg_level == SOL_SOCKET && cmsg_type == SCM_RIGHTS`. -/
def cmsg_matches (cm : cmsghdr) : Bool :=
  cm.cmsg_level == SOL_SOCKET && cm.cmsg_type == SCM_RIGHTS

/-- The `CMSG_FIRSTHDR`/`CMSG_NXTHDR` scanning loop of
`wrapper_recv_msg`: starting from `list = Val_int(0)` (the empty list),
take the first record that matches, extract its descriptors, and
`break`; a non-matching record is skipped. -/
def scan_cmsgs : List cmsghdr → List Int
  | [] => []
  | cm :: rest => if cmsg_matches cm then extract_fds cm else scan_cmsgs rest

/-- The `msghdr` `wrapper_recv_msg` hands to `recvmsg`: the caller's
iovec array; with `HAVE_FD_PASSING` a zeroed control buffer of capacity
`CMSG_SPACE(256 * sizeof(int))`, without it the zeroed (NULL / 0)
control fields. -/
def recv_msghdr (hfp : Bool) (iovs : List iovec) : msghdr :=
  { msg_iov := iovs
    msg_controllen := if hfp then recv_controllen else 0
    msg_control := [] }

/-- `wrapper_recv_msg`: one `recvmsg` call; on -1, `uerror("recv_msg")`
with the OS errno; otherwise return the byte count paired with the
descriptor list, which the `HAVE_FD_PASSING` scanning loop produces from
the delivered control records (and which stays `Val_int(0)` = [] when
the build lacks fd passing, the scanning code being compiled out). -/
def wrapper_recv_msg (hfp : Bool) (out : recvOutcome) (iovs : List iovec) :
    Except unixError (Nat × List Int) × List syscall :=
  match out with
  | .fail e =>
      (.error (.unix_error e "recv_msg"),
       [.recvmsg_call (recv_msghdr hfp iovs) (-1)])
  | .ok n cmsgs =>
      (.ok (n, if hfp then scan_cmsgs cmsgs else []),
       [.recvmsg_call (recv_msghdr hfp iovs) (n : Int)])

/-- The `msghdr` `wrapper_send_msg` builds on a `HAVE_FD_PASSING` build:
for `n_fds > 0`, a control buffer of capacity
`CMSG_SPACE(n_fds * sizeof(int))` holding one record with level
`SOL_SOCKET`, type `SCM_RIGHTS`, length `CMSG_LEN(n_fds * sizeof(int))`
and the caller's descriptor list written in order as its payload;
otherwise the zeroed control fields. -/
def send_msghdr (iovs : List iovec) (n_fds : Nat) (fds : List Int) : msghdr :=
  if 0 < n_fds then
    { msg_iov := iovs
      msg_controllen := CMSG_SPACE (n_fds * sizeof_int)
      msg_control := [⟨CMSG_LEN (n_fds * sizeof_int), SOL_SOCKET, SCM_RIGHTS, fds⟩] }
  else
    { msg_iov := iovs, msg_controllen := 0, msg_control := [] }

/-- `wrapper_send_msg`: on a build without `HAVE_FD_PASSING`, a
non-empty descriptor list raises `lwt_unix_not_available("fd_passing")`
before `sendmsg` is reached (empty syscall trace); otherwise one
`sendmsg` call on the built `msghdr`, with `uerror("send_msg")` carrying
the OS errno when it returns -1. -/
def wrapper_send_msg (hfp : Bool) (os_sendmsg : msghdr → Int) (errno : Nat)
    (iovs : List iovec) (n_fds : Nat) (fds : List Int) :
    Except unixError Int × List syscall :=
  if hfp then
    let m := send_msghdr iovs n_fds fds
    ((if os_sendmsg m = -1 then .error (.unix_error errno "send_msg")
      else .ok (os_sendmsg m)),
     [.sendmsg_call m (os_sendmsg m)])
  else if 0 < n_fds then
    (.error (.not_available "fd_passing"), [])
  else
    let m := send_msghdr iovs 0 fds
    ((if os_sendmsg m = -1 then .error (.unix_error errno "send_msg")
      else .ok (os_sendmsg m)),
     [.sendmsg_call m (os_sendmsg m)])

/-- Modelled from the spec: the kernel's write of one received chunk into
one buffer region during `recvmsg` (the repository contains only the
wrappers; the data movement itself is the kernel's, described in
section 4.2 of the spec).  Memory is a function from addresses to byte
values; the chunk `data` lands at `base`. -/
def writeRegion (mem : Nat → Nat) (base : Nat) (data : List Nat) : Nat → Nat :=
  fun a => if base ≤ a ∧ a < base + data.length then data.getD (a - base) 0 else mem a

/-- Modelled from the spec: `recvmsg` scatters the incoming byte stream
across the iovec regions in order, filling each region to its length
before moving to the next. -/
def scatterMsg (mem : Nat → Nat) : List iovec → List Nat → (Nat → Nat)
  | [], _ => mem
  | iov :: rest, data =>
      scatterMsg (writeRegion mem iov.iov_base (data.take iov.iov_len)) rest
        (data.drop iov.iov_len)

/-- The byte values of one iovec region, read from memory in address
order. -/
def readRegion (mem : Nat → Nat) (base len : Nat) : List Nat :=
  (List.range len).map fun j => mem (base + j)

/-- Modelled from the spec: `sendmsg` gathers the iovec regions'
contents in order into a single outgoing byte stream. -/
def gatherMsg (mem : Nat → Nat) : List iovec → List Nat
  | [] => []
  | iov :: rest => readRegion mem iov.iov_base iov.iov_len ++ gatherMsg mem rest

/-- Two iovec regions occupy disjoint address ranges. -/
def iovDisjoint (x y : iovec) : Prop :=
  x.iov_base + x.iov_len ≤ y.iov_base ∨ y.iov_base + y.iov_len ≤ x.iov_base

instance (x y : iovec) : Decidable (iovDisjoint x y) := by
  unfold iovDisjoint; infer_instance

lemma bytes_store_iovs_eq (iovs : List iovec) (pos : Nat) (ds : List bufferDesc) :
    bytes_store_iovs iovs pos ds = store_iovs iovs pos ds := by
  induction ds generalizing iovs pos with
  | nil => rfl
  | cons d rest ih => simp [store_iovs, bytes_store_iovs, ih]

lemma store_iovs_length (ds : List bufferDesc) (iovs : List iovec) (pos : Nat) :
    (store_iovs iovs pos ds).length = iovs.length := by
  induction ds generalizing iovs pos with
  | nil => rfl
  | cons d rest ih => simp [store_iovs, ih, List.length_set]

lemma store_iovs_get? (ds : List bufferDesc) (iovs : List iovec) (pos i : Nat)
    (h : pos + ds.length ≤ iovs.length) :
    (store_iovs iovs pos ds).get? i =
      if pos ≤ i ∧ i < pos + ds.length then
        (ds.get? (i - pos)).map (fun d => iovec.mk (d.buf_base + d.off) d.len)
      else iovs.get? i := by
  induction ds generalizing iovs pos with
  | nil =>
    simp only [store_iovs, List.length_nil]
    rw [if_neg (by omega)]
  | cons d rest ih =>
    rw [store_iovs]
    rw [ih (iovs.set pos ⟨d.buf_base + d.off, d.len⟩) (pos + 1)
        (by rw [List.length_set]; simp only [List.length_cons] at h; omega)]
    by_cases h1 : i < pos
    · rw [if_neg (by omega), if_neg (by simp only [List.length_cons]; omega),
          List.get?_set_ne _ _ (by omega)]
    · by_cases h2 : i = pos
      · subst h2
        rw [if_neg (by omega), if_pos (by simp only [List.length_cons]; omega)]
        rw [List.get?_set_eq_of_lt _ (by simp only [List.length_cons] at h; omega)]
        simp
      · by_cases h3 : i < pos + 1 + rest.length
        · rw [if_pos (by omega), if_pos (by simp only [List.length_cons]; omega)]
          have h4 : i - pos = (i - (pos + 1)) + 1 := by omega
          rw [h4, List.get?_cons_succ]
        · rw [if_neg (by omega), if_neg (by simp only [List.length_cons]; omega),
              List.get?_set_ne _ _ (by omega)]

/-- C1: for every input list of buffer descriptors, of either storage kind,
the vector builder (`store_iovs` for managed byte-sequence buffers,
`bytes_store_iovs` for external flat buffers) writes exactly one
{base, length} entry per input descriptor into the pre-allocated output
array, in input order, with base = backing region base address plus the
descriptor's offset and the length copied unchanged, and it leaves every
slot past the written ones unchanged (it writes nothing beyond those
entries, and never touches byte contents). -/
theorem store_iovs_build_entries (iovs : List iovec) (ds : List bufferDesc)
    (h : ds.length ≤ iovs.length) :
    ((store_iovs iovs 0 ds).length = iovs.length
      ∧ (∀ i, i < ds.length → (store_iovs iovs 0 ds).get? i =
          (ds.get? i).map (fun d => iovec.mk (d.buf_base + d.off) d.len))
      ∧ (∀ i, ds.length ≤ i → (store_iovs iovs 0 ds).get? i = iovs.get? i))
    ∧ ((bytes_store_iovs iovs 0 ds).length = iovs.length
      ∧ (∀ i, i < ds.length → (bytes_store_iovs iovs 0 ds).get? i =
          (ds.get? i).map (fun d => iovec.mk (d.buf_base + d.off) d.len))
      ∧ (∀ i, ds.length ≤ i → (bytes_store_iovs iovs 0 ds).get? i = iovs.get? i)) := by
  have key : ∀ i, (store_iovs iovs 0 ds).get? i =
      if 0 ≤ i ∧ i < 0 + ds.length then
        (ds.get? (i - 0)).map (fun d => iovec.mk (d.buf_base + d.off) d.len)
      else iovs.get? i :=
    fun i => store_iovs_get? ds iovs 0 i (by omega)
  constructor
  · exact ⟨store_iovs_length ds iovs 0,
      fun i hi => by rw [key i, if_pos (by omega)]; simp,
      fun i hi => by rw [key i, if_neg (by omega)]⟩
  · rw [bytes_store_iovs_eq]
    exact ⟨store_iovs_length ds iovs 0,
      fun i hi => by rw [key i, if_pos (by omega)]; simp,
      fun i hi => by rw [key i, if_neg (by omega)]⟩

/-- Witness for C1 at a concrete input: two descriptors written into a
three-slot array. -/
theorem store_iovs_build_entries_witness :
    ([⟨100, 2, 5⟩, ⟨200, 1, 3⟩] : List bufferDesc).length ≤
        ([⟨0, 0⟩, ⟨0, 0⟩, ⟨7, 7⟩] : List iovec).length
    ∧ (((store_iovs [⟨0, 0⟩, ⟨0, 0⟩, ⟨7, 7⟩] 0 [⟨100, 2, 5⟩, ⟨200, 1, 3⟩]).length =
          ([⟨0, 0⟩, ⟨0, 0⟩, ⟨7, 7⟩] : List iovec).length
      ∧ (∀ i, i < ([⟨100, 2, 5⟩, ⟨200, 1, 3⟩] : List bufferDesc).length →
          (store_iovs [⟨0, 0⟩, ⟨0, 0⟩, ⟨7, 7⟩] 0 [⟨100, 2, 5⟩, ⟨200, 1, 3⟩]).get? i =
          (([⟨100, 2, 5⟩, ⟨200, 1, 3⟩] : List bufferDesc).get? i).map
            (fun d => iovec.mk (d.buf_base + d.off) d.len))
      ∧ (∀ i, ([⟨100, 2, 5⟩, ⟨200, 1, 3⟩] : List bufferDesc).length ≤ i →
          (store_iovs [⟨0, 0⟩, ⟨0, 0⟩, ⟨7, 7⟩] 0 [⟨100, 2, 5⟩, ⟨200, 1, 3⟩]).get? i =
          ([⟨0, 0⟩, ⟨0, 0⟩, ⟨7, 7⟩] : List iovec).get? i))
    ∧ ((bytes_store_iovs [⟨0, 0⟩, ⟨0, 0⟩, ⟨7, 7⟩] 0 [⟨100, 2, 5⟩, ⟨200, 1, 3⟩]).length =
          ([⟨0, 0⟩, ⟨0, 0⟩, ⟨7, 7⟩] : List iovec).length
      ∧ (∀ i, i < ([⟨100, 2, 5⟩, ⟨200, 1, 3⟩] : List bufferDesc).length →
          (bytes_store_iovs [⟨0, 0⟩, ⟨0, 0⟩, ⟨7, 7⟩] 0 [⟨100, 2, 5⟩, ⟨200, 1, 3⟩]).get? i =
          (([⟨100, 2, 5⟩, ⟨200, 1, 3⟩] : List bufferDesc).get? i).map
            (fun d => iovec.mk (d.buf_base + d.off) d.len))
      ∧ (∀ i, ([⟨100, 2, 5⟩, ⟨200, 1, 3⟩] : List bufferDesc).length ≤ i →
          (bytes_store_iovs [⟨0, 0⟩, ⟨0, 0⟩, ⟨7, 7⟩] 0 [⟨100, 2, 5⟩, ⟨200, 1, 3⟩]).get? i =
          ([⟨0, 0⟩, ⟨0, 0⟩, ⟨7, 7⟩] : List iovec).get? i))) :=
  ⟨by decide, store_iovs_build_entries _ _ (by decide)⟩

lemma take_succ_getD (l : List Int) (k : Nat) (h : k < l.length) :
    l.take (k + 1) = l.take k ++ [l.getD k 0] := by
  induction l generalizing k with
  | nil => simp at h
  | cons a t ih =>
    cases k with
    | zero => simp
    | succ k =>
      simp only [List.take_succ_cons, List.getD_cons_succ]
      rw [ih k (by simp only [List.length_cons] at h; omega)]
      simp

lemma fd_collect_eq_take (fds : List Int) : ∀ (k : Nat) (acc : List Int),
    k ≤ fds.length → fd_collect fds k acc = fds.take k ++ acc := by
  intro k
  induction k with
  | zero => intro acc h; simp [fd_collect]
  | succ k ih =>
    intro acc h
    rw [fd_collect, ih (fds.getD k 0 :: acc) (by omega),
        take_succ_getD fds k (by omega)]
    simp

lemma fd_collect_length (fds : List Int) : ∀ (k : Nat) (acc : List Int),
    (fd_collect fds k acc).length = k + acc.length := by
  intro k
  induction k with
  | zero => intro acc; simp [fd_collect]
  | succ k ih =>
    intro acc
    rw [fd_collect, ih]
    simp only [List.length_cons]
    omega

lemma cmsg_len_nfds (L : Nat) :
    (CMSG_LEN (L * sizeof_int) - CMSG_LEN 0) / sizeof_int = L := by
  unfold CMSG_LEN CMSG_ALIGN cmsghdr_size sizeof_int
  omega

lemma extract_fds_exact (lv ty : Nat) (d : List Int) :
    extract_fds ⟨CMSG_LEN (d.length * sizeof_int), lv, ty, d⟩ = d := by
  unfold extract_fds
  simp only [cmsg_len_nfds]
  rw [fd_collect_eq_take d d.length [] (le_refl _)]
  simp

lemma extract_fds_length (cm : cmsghdr) :
    (extract_fds cm).length = (cm.cmsg_len - CMSG_LEN 0) / sizeof_int := by
  unfold extract_fds
  rw [fd_collect_length]
  rfl

lemma scan_cmsgs_append_no_match (pre l : List cmsghdr)
    (hpre : ∀ cm ∈ pre, cmsg_matches cm = false) :
    scan_cmsgs (pre ++ l) = scan_cmsgs l := by
  induction pre with
  | nil => rfl
  | cons c t ih =>
    have hc := hpre c (by simp)
    simp only [List.cons_append, scan_cmsgs]
    rw [if_neg (by simp [hc])]
    exact ih fun cm hm => hpre cm (by simp [hm])

lemma scan_cmsgs_length_le (cmsgs : List cmsghdr)
    (h : ∀ cm ∈ cmsgs, cm.cmsg_len ≤ recv_controllen) :
    (scan_cmsgs cmsgs).length ≤ 256 := by
  induction cmsgs with
  | nil => simp [scan_cmsgs]
  | cons c t ih =>
    rw [scan_cmsgs]
    by_cases hc : cmsg_matches c = true
    · rw [if_pos hc, extract_fds_length]
      have hcap := h c (by simp)
      unfold recv_controllen CMSG_SPACE CMSG_LEN CMSG_ALIGN cmsghdr_size sizeof_int at *
      omega
    · rw [if_neg hc]
      exact ih fun cm hm => h cm (by simp [hm])

/-- C3: when the matching rights-transfer record of an incoming message
carries descriptors d0..d(n-1) (its cmsg_len sized to exactly n ints),
`wrapper_recv_msg` returns the list [d0, ..., d(n-1)] in ascending
transmitted index order, even though the implementation builds the list
by prepending while scanning the record in reverse. -/
theorem recv_fds_transmitted_order (n : Nat) (pre rest : List cmsghdr)
    (d : List Int) (iovs : List iovec)
    (hpre : ∀ cm ∈ pre, cmsg_matches cm = false) :
    (wrapper_recv_msg true
        (.ok n (pre ++ ⟨CMSG_LEN (d.length * sizeof_int), SOL_SOCKET, SCM_RIGHTS, d⟩ :: rest))
        iovs).1 = .ok (n, d) := by
  have hscan : scan_cmsgs
      (pre ++ ⟨CMSG_LEN (d.length * sizeof_int), SOL_SOCKET, SCM_RIGHTS, d⟩ :: rest) = d := by
    have hm : cmsg_matches
        ⟨CMSG_LEN (d.length * sizeof_int), SOL_SOCKET, SCM_RIGHTS, d⟩ = true := rfl
    rw [scan_cmsgs_append_no_match pre _ hpre, scan_cmsgs, if_pos hm,
        extract_fds_exact]
  simp [wrapper_recv_msg, hscan]

/-- Witness for C3 at a concrete input: one non-matching record followed
by a rights record carrying [5, 7, 9]. -/
theorem recv_fds_transmitted_order_witness :
    (∀ cm ∈ ([⟨CMSG_LEN 0, 0, 0, []⟩] : List cmsghdr), cmsg_matches cm = false)
    ∧ (wrapper_recv_msg true
        (.ok 4 ([⟨CMSG_LEN 0, 0, 0, []⟩] ++
          ⟨CMSG_LEN (([5, 7, 9] : List Int).length * sizeof_int), SOL_SOCKET, SCM_RIGHTS,
            [5, 7, 9]⟩ :: []))
        []).1 = .ok (4, [5, 7, 9]) :=
  ⟨by decide, recv_fds_transmitted_order 4 _ _ _ _ (by decide)⟩

/-- C4: with more than one socket-level rights-transfer record attached,
`wrapper_recv_msg` extracts descriptors only from the first matching
record it encounters; the records after it (the universally quantified
`rest`, absent from the result) are ignored, the scan stopping at the
first match. -/
theorem recv_first_rights_record_only (n : Nat) (pre rest : List cmsghdr) (r : cmsghdr)
    (iovs : List iovec)
    (hpre : ∀ cm ∈ pre, cmsg_matches cm = false) (hr : cmsg_matches r = true) :
    (wrapper_recv_msg true (.ok n (pre ++ r :: rest)) iovs).1 =
      .ok (n, extract_fds r) := by
  have hscan : scan_cmsgs (pre ++ r :: rest) = extract_fds r := by
    rw [scan_cmsgs_append_no_match pre _ hpre, scan_cmsgs, if_pos hr]
  simp [wrapper_recv_msg, hscan]

/-- Witness for C4 at a concrete input: the second matching record
(payload [8]) is ignored; only the first (payload [3]) is extracted. -/
theorem recv_first_rights_record_only_witness :
    (∀ cm ∈ ([⟨CMSG_LEN 0, 0, 0, []⟩] : List cmsghdr), cmsg_matches cm = false)
    ∧ cmsg_matches ⟨CMSG_LEN sizeof_int, SOL_SOCKET, SCM_RIGHTS, [3]⟩ = true
    ∧ (wrapper_recv_msg true
        (.ok 1 ([⟨CMSG_LEN 0, 0, 0, []⟩] ++
          ⟨CMSG_LEN sizeof_int, SOL_SOCKET, SCM_RIGHTS, [3]⟩ ::
          [⟨CMSG_LEN sizeof_int, SOL_SOCKET, SCM_RIGHTS, [8]⟩]))
        []).1 = .ok (1, extract_fds ⟨CMSG_LEN sizeof_int, SOL_SOCKET, SCM_RIGHTS, [3]⟩) :=
  ⟨by decide, by decide,
    recv_first_rights_record_only 1 _ _ _ _ (by decide) (by decide)⟩

/-- C7: on a build without fd-passing support, `wrapper_recv_msg` still
performs the single data-receive call (one recvmsg event, with NULL
control buffer) and returns its byte count, and the returned descriptor
list is always empty, whatever control records the peer's message
carried. -/
theorem recv_without_fd_passing (n : Nat) (cmsgs : List cmsghdr) (iovs : List iovec) :
    wrapper_recv_msg false (.ok n cmsgs) iovs =
      (.ok (n, []), [.recvmsg_call (recv_msghdr false iovs) (n : Int)]) := rfl

/-- C6 as stated is false at this input: the typed I/O failure raised
when recvmsg returns -1 (here with errno 9) carries the operation name
"recv_msg", not "receive_message". -/
theorem recv_error_tag_counterexample :
    (wrapper_recv_msg true (.fail 9) []).1 = .error (.unix_error 9 "recv_msg")
    ∧ "recv_msg" ≠ "receive_message" :=
  ⟨rfl, by decide⟩

/-- C6 amended: `wrapper_recv_msg` raises a typed I/O failure carrying
the OS error code and operation name "recv_msg" exactly when recvmsg
returns -1, and `wrapper_send_msg` one carrying the OS code and name
"send_msg" exactly when sendmsg returns -1; a 0-byte receive is a normal
result (an instance of the ok case), and each wrapper issues exactly one
system call (no internal retry). -/
theorem error_code_and_tag_propagation (e n errno : Nat) (iovs : List iovec)
    (cmsgs : List cmsghdr) (out : recvOutcome) (os : msghdr → Int)
    (nf : Nat) (fds : List Int) :
    (wrapper_recv_msg true (.fail e) iovs).1 = .error (.unix_error e "recv_msg")
    ∧ (wrapper_recv_msg true (.ok n cmsgs) iovs).1 = .ok (n, scan_cmsgs cmsgs)
    ∧ (wrapper_recv_msg true out iovs).2.length = 1
    ∧ (wrapper_send_msg true os errno iovs nf fds).1 =
        (if os (send_msghdr iovs nf fds) = -1 then .error (.unix_error errno "send_msg")
         else .ok (os (send_msghdr iovs nf fds)))
    ∧ (wrapper_send_msg true os errno iovs nf fds).2.length = 1 := by
  refine ⟨rfl, rfl, ?_, rfl, rfl⟩
  cases out <;> rfl

/-- C10: `wrapper_recv_msg` on an fd-passing build hands the kernel a
control buffer of fixed capacity CMSG_SPACE(256 * sizeof(int)); any
batch of delivered records fitting that capacity yields at most 256
descriptors in one receive. -/
theorem recv_fd_capacity_limit (n : Nat) (cmsgs : List cmsghdr) (iovs : List iovec)
    (h : ∀ cm ∈ cmsgs, cm.cmsg_len ≤ recv_controllen) :
    recv_controllen = CMSG_SPACE (256 * sizeof_int)
    ∧ (wrapper_recv_msg true (.ok n cmsgs) iovs).2 =
        [.recvmsg_call ⟨iovs, recv_controllen, []⟩ (n : Int)]
    ∧ (wrapper_recv_msg true (.ok n cmsgs) iovs).1 = .ok (n, scan_cmsgs cmsgs)
    ∧ (scan_cmsgs cmsgs).length ≤ 256 :=
  ⟨rfl, rfl, rfl, scan_cmsgs_length_le cmsgs h⟩

/-- Witness for C10 at a concrete input: one rights record with two
descriptors, fitting the fixed capacity. -/
theorem recv_fd_capacity_limit_witness :
    (∀ cm ∈ ([⟨CMSG_LEN (2 * sizeof_int), SOL_SOCKET, SCM_RIGHTS, [1, 2]⟩] : List cmsghdr),
        cm.cmsg_len ≤ recv_controllen)
    ∧ (recv_controllen = CMSG_SPACE (256 * sizeof_int)
      ∧ (wrapper_recv_msg true
          (.ok 0 [⟨CMSG_LEN (2 * sizeof_int), SOL_SOCKET, SCM_RIGHTS, [1, 2]⟩]) []).2 =
          [.recvmsg_call ⟨[], recv_controllen, []⟩ ((0 : Nat) : Int)]
      ∧ (wrapper_recv_msg true
          (.ok 0 [⟨CMSG_LEN (2 * sizeof_int), SOL_SOCKET, SCM_RIGHTS, [1, 2]⟩]) []).1 =
          .ok (0, scan_cmsgs [⟨CMSG_LEN (2 * sizeof_int), SOL_SOCKET, SCM_RIGHTS, [1, 2]⟩])
      ∧ (scan_cmsgs [⟨CMSG_LEN (2 * sizeof_int), SOL_SOCKET, SCM_RIGHTS, [1, 2]⟩]).length ≤ 256) :=
  ⟨by decide, recv_fd_capacity_limit 0 _ _ (by decide)⟩

/-- C5: on a build without descriptor-passing support, a non-empty
descriptor list makes `wrapper_send_msg` fail with the typed
feature-unavailable error before sendmsg is attempted — the syscall
trace is empty and the result does not depend on the kernel oracle —
while an empty descriptor list on the same build still performs the
data-only send normally. -/
theorem send_fd_passing_unavailable (os : msghdr → Int) (errno : Nat)
    (iovs : List iovec) (n_fds : Nat) (fds : List Int) (h : 0 < n_fds) :
    wrapper_send_msg false os errno iovs n_fds fds =
      (.error (.not_available "fd_passing"), [])
    ∧ wrapper_send_msg false os errno iovs 0 [] =
        ((if os (send_msghdr iovs 0 []) = -1 then .error (.unix_error errno "send_msg")
          else .ok (os (send_msghdr iovs 0 []))),
         [.sendmsg_call (send_msghdr iovs 0 []) (os (send_msghdr iovs 0 []))]) := by
  constructor
  · unfold wrapper_send_msg
    simp [h]
  · rfl

/-- Witness for C5 at a concrete input: one descriptor on a build
without fd passing. -/
theorem send_fd_passing_unavailable_witness :
    0 < 1
    ∧ wrapper_send_msg false (fun _ => 5) 0 [] 1 [3] =
        (.error (.not_available "fd_passing"), [])
    ∧ wrapper_send_msg false (fun _ => 5) 0 [] 0 [] =
        ((if (fun (_ : msghdr) => (5 : Int)) (send_msghdr [] 0 []) = -1 then
            .error (.unix_error 0 "send_msg")
          else .ok ((fun (_ : msghdr) => (5 : Int)) (send_msghdr [] 0 []))),
         [.sendmsg_call (send_msghdr [] 0 [])
            ((fun (_ : msghdr) => (5 : Int)) (send_msghdr [] 0 []))]) := by
  have h := send_fd_passing_unavailable (fun _ => 5) 0 [] 1 [3] (by decide)
  exact ⟨by decide, h.1, h.2⟩

/-- C8: on an fd-passing build, sending with a non-empty list of n
descriptors attaches exactly one control record to the outgoing message:
socket level, SCM_RIGHTS type, length CMSG_LEN(n * sizeof(int)) — sized
exactly to hold n native-sized ints — and payload the caller's
descriptor list in order; exactly one sendmsg call carries that
message. -/
theorem send_single_rights_record (os : msghdr → Int) (errno : Nat)
    (iovs : List iovec) (fds : List Int) (n_fds : Nat) (h : 0 < n_fds) :
    (wrapper_send_msg true os errno iovs n_fds fds).2 =
      [.sendmsg_call (send_msghdr iovs n_fds fds) (os (send_msghdr iovs n_fds fds))]
    ∧ (send_msghdr iovs n_fds fds).msg_control =
        [⟨CMSG_LEN (n_fds * sizeof_int), SOL_SOCKET, SCM_RIGHTS, fds⟩]
    ∧ (send_msghdr iovs n_fds fds).msg_controllen = CMSG_SPACE (n_fds * sizeof_int)
    ∧ (send_msghdr iovs n_fds fds).msg_iov = iovs := by
  refine ⟨rfl, ?_, ?_, ?_⟩ <;> (unfold send_msghdr; rw [if_pos h])

/-- Witness for C8 at a concrete input: two descriptors [4, 5]. -/
theorem send_single_rights_record_witness :
    0 < 2
    ∧ ((wrapper_send_msg true (fun _ => 3) 0 [] 2 [4, 5]).2 =
        [.sendmsg_call (send_msghdr [] 2 [4, 5])
          ((fun (_ : msghdr) => (3 : Int)) (send_msghdr [] 2 [4, 5]))]
      ∧ (send_msghdr [] 2 [4, 5]).msg_control =
          [⟨CMSG_LEN (2 * sizeof_int), SOL_SOCKET, SCM_RIGHTS, [4, 5]⟩]
      ∧ (send_msghdr [] 2 [4, 5]).msg_controllen = CMSG_SPACE (2 * sizeof_int)
      ∧ (send_msghdr [] 2 [4, 5]).msg_iov = []) :=
  ⟨by decide, send_single_rights_record (fun _ => 3) 0 [] [4, 5] 2 (by decide)⟩

/-- C9: sending with an empty descriptor list attaches no control data
(the message's control fields stay zeroed/absent) on either kind of
build, and a peer receiving a message with no control records obtains an
empty descriptor list. -/
theorem send_empty_fds_no_control (hfp : Bool) (os : msghdr → Int) (errno n : Nat)
    (iovs : List iovec) :
    (send_msghdr iovs 0 []).msg_control = []
    ∧ (send_msghdr iovs 0 []).msg_controllen = 0
    ∧ (wrapper_send_msg hfp os errno iovs 0 []).2 =
        [.sendmsg_call (send_msghdr iovs 0 []) (os (send_msghdr iovs 0 []))]
    ∧ (wrapper_recv_msg true (.ok n []) iovs).1 = .ok (n, []) := by
  refine ⟨rfl, rfl, ?_, rfl⟩
  cases hfp <;> rfl

lemma writeRegion_outside (mem : Nat → Nat) (base : Nat) (data : List Nat) (a : Nat)
    (h : a < base ∨ base + data.length ≤ a) :
    writeRegion mem base data a = mem a := by
  unfold writeRegion
  rw [if_neg (by omega)]

lemma scatterMsg_outside (a : Nat) :
    ∀ (iovs : List iovec) (mem : Nat → Nat) (data : List Nat),
    (∀ iov ∈ iovs, a < iov.iov_base ∨ iov.iov_base + iov.iov_len ≤ a) →
    scatterMsg mem iovs data a = mem a := by
  intro iovs
  induction iovs with
  | nil => intro mem data _; rfl
  | cons iov rest ih =>
    intro mem data h
    rw [scatterMsg, ih _ _ fun x hx => h x (by simp [hx])]
    apply writeRegion_outside
    have hi := h iov (by simp)
    have hlen : (data.take iov.iov_len).length ≤ iov.iov_len := by
      rw [List.length_take]; exact Nat.min_le_left _ _
    omega

lemma map_getD_range (data : List Nat) :
    (List.range data.length).map (fun j => data.getD j 0) = data := by
  induction data with
  | nil => rfl
  | cons b t ih =>
    rw [List.length_cons, List.range_succ_eq_map]
    simp only [List.map_cons, List.getD_cons_zero, List.map_map]
    have h1 : (List.range t.length).map ((fun j => (b :: t).getD j 0) ∘ Nat.succ) =
        (List.range t.length).map (fun j => t.getD j 0) := by
      apply List.map_congr_left
      intro j _
      simp [List.getD_cons_succ]
    rw [h1, ih]

lemma readRegion_writeRegion (mem : Nat → Nat) (base : Nat) (data : List Nat) :
    readRegion (writeRegion mem base data) base data.length = data := by
  unfold readRegion writeRegion
  refine Eq.trans (List.map_congr_left ?_) (map_getD_range data)
  intro j hj
  rw [List.mem_range] at hj
  rw [if_pos (by omega)]
  have hb : base + j - base = j := by omega
  rw [hb]

lemma readRegion_writeRegion_of_length (mem : Nat → Nat) (base len : Nat)
    (data : List Nat) (h : data.length = len) :
    readRegion (writeRegion mem base data) base len = data := by
  subst h
  exact readRegion_writeRegion mem base data

lemma readRegion_scatterMsg_disjoint (iovs : List iovec) (mem : Nat → Nat)
    (data : List Nat) (base len : Nat)
    (h : ∀ iov ∈ iovs, iovDisjoint ⟨base, len⟩ iov) :
    readRegion (scatterMsg mem iovs data) base len = readRegion mem base len := by
  unfold readRegion
  apply List.map_congr_left
  intro j hj
  rw [List.mem_range] at hj
  apply scatterMsg_outside
  intro iov hiov
  have hd : base + len ≤ iov.iov_base ∨ iov.iov_base + iov.iov_len ≤ base := h iov hiov
  omega

lemma gatherMsg_length (mem : Nat → Nat) (iovs : List iovec) :
    (gatherMsg mem iovs).length = (iovs.map iovec.iov_len).sum := by
  induction iovs with
  | nil => rfl
  | cons iov rest ih => simp [gatherMsg, readRegion, ih]

lemma scatter_gather (iovs : List iovec) :
    ∀ (mem : Nat → Nat) (data : List Nat),
    (iovs.map iovec.iov_len).sum = data.length →
    iovs.Pairwise iovDisjoint →
    gatherMsg (scatterMsg mem iovs data) iovs = data := by
  induction iovs with
  | nil =>
    intro mem data hlen _
    simp only [List.map_nil, List.sum_nil] at hlen
    rw [gatherMsg]
    exact (List.length_eq_zero.mp hlen.symm).symm
  | cons iov rest ih =>
    intro mem data hlen hdisj
    rw [List.pairwise_cons] at hdisj
    obtain ⟨hd, hp⟩ := hdisj
    simp only [List.map_cons, List.sum_cons] at hlen
    have htake : (data.take iov.iov_len).length = iov.iov_len := by
      rw [List.length_take]; omega
    rw [scatterMsg, gatherMsg]
    have h1 : readRegion
        (scatterMsg (writeRegion mem iov.iov_base (data.take iov.iov_len)) rest
          (data.drop iov.iov_len)) iov.iov_base iov.iov_len =
        data.take iov.iov_len := by
      rw [readRegion_scatterMsg_disjoint rest _ _ _ _ hd]
      exact readRegion_writeRegion_of_length _ _ _ _ htake
    have h2 : gatherMsg
        (scatterMsg (writeRegion mem iov.iov_base (data.take iov.iov_len)) rest
          (data.drop iov.iov_len)) rest =
        data.drop iov.iov_len := by
      apply ih
      · rw [List.length_drop]; omega
      · exact hp
    rw [h1, h2, List.take_append_drop]

/-- C2: for every byte sequence sent as a vector split across K
descriptors (`gatherMsg` over the send vector, per the kernel gather
semantics of sendmsg) and received into a vector of matching total
capacity split across M pairwise-disjoint descriptors (`scatterMsg`,
per the kernel scatter semantics of recvmsg), the bytes reassembled in
order from the receive vector equal the original sequence, for any K
and M. -/
theorem vector_round_trip_data (smem rmem : Nat → Nat) (siovs riovs : List iovec)
    (hdisj : riovs.Pairwise iovDisjoint)
    (hcap : (riovs.map iovec.iov_len).sum = (siovs.map iovec.iov_len).sum) :
    gatherMsg (scatterMsg rmem riovs (gatherMsg smem siovs)) riovs =
      gatherMsg smem siovs := by
  apply scatter_gather riovs rmem
  · rw [gatherMsg_length, hcap]
  · exact hdisj

/-- Witness for C2 at a concrete input: 3 bytes sent from K = 2 regions,
received into M = 2 disjoint regions of sizes 1 and 2. -/
theorem vector_round_trip_data_witness :
    ([⟨200, 1⟩, ⟨300, 2⟩] : List iovec).Pairwise iovDisjoint
    ∧ (([⟨200, 1⟩, ⟨300, 2⟩] : List iovec).map iovec.iov_len).sum =
        (([⟨0, 2⟩, ⟨50, 1⟩] : List iovec).map iovec.iov_len).sum
    ∧ gatherMsg (scatterMsg (fun _ => 0) [⟨200, 1⟩, ⟨300, 2⟩]
          (gatherMsg (fun a => a % 100) [⟨0, 2⟩, ⟨50, 1⟩])) [⟨200, 1⟩, ⟨300, 2⟩] =
        gatherMsg (fun a => a % 100) [⟨0, 2⟩, ⟨50, 1⟩] :=
  ⟨by decide, by decide,
    vector_round_trip_data (fun a => a % 100) (fun _ => 0) _ _ (by decide) (by decide)⟩

end LwtRecvSend
